import Mathlib

/-!
Shallow embedding of the `emulated-cpu` Rust crate (files `src/main.rs` and
`src/memory.rs`): a toy virtual CPU with a named register file, a call
stack of per-function local storage, a function table built at load time,
an instruction dispatcher and a paced execution loop.

Machine integers (`u16`, and `usize` casts to `u16`) are embedded as `Nat`
with explicit reduction modulo `2^16 = 65536` where Rust's release-profile
two's-complement wrapping applies.  Rust panics are embedded as
`Except.error` with an error enumeration named after the spec's error
kinds.  Wall-clock pacing (`std::thread::sleep`, `Instant`) has no effect
on the machine state or on the emitted trace and is not modelled.
-/

namespace EmulatedCpu

/-- The `u16` modulus. -/
def U16 : Nat := 65536

/-- Error kinds: each corresponds to a `panic!` site in the Rust source
(or an indexing panic), named after the spec's error enumeration.
`indexOutOfBounds` stands for a raw slice-indexing panic that is not one of
the named kinds (it only occurs on paths that are unreachable). -/
inductive Err where
  | unknownRegister : String → Err
  | unknownFunction : String → Err
  | missingMainFunction : Err
  | invalidMovDestination : Err
  | emptyCallStack : Err
  | indexOutOfBounds : Err
deriving DecidableEq, Repr

/-- `InstructionArgument` from `main.rs`: `Stack(u16)`, `Register(&str)`,
`Value(u16)`. -/
inductive InstructionArgument where
  | Stack : Nat → InstructionArgument
  | Register : String → InstructionArgument
  | Value : Nat → InstructionArgument
deriving DecidableEq, Repr

/-- `CpuInstruction` from `main.rs`.  The two branches of `If` are single
nested instructions (boxed in Rust). -/
inductive CpuInstruction where
  | Add : InstructionArgument → InstructionArgument → CpuInstruction
  | Sub : InstructionArgument → InstructionArgument → CpuInstruction
  | Mov : InstructionArgument → InstructionArgument → CpuInstruction
  | Eq : InstructionArgument → InstructionArgument → CpuInstruction
  | Fn : String → CpuInstruction
  | Ret : CpuInstruction
  | Call : String → CpuInstruction
  | Goto : Nat → CpuInstruction
  | If : InstructionArgument → CpuInstruction → CpuInstruction → CpuInstruction
  | Exit : CpuInstruction
deriving DecidableEq, Repr

/-- `CpuRegisters` from `main.rs`: four general registers and `res`. -/
structure CpuRegisters where
  a : Nat
  b : Nat
  c : Nat
  d : Nat
  res : Nat
deriving DecidableEq, Repr

/-- `SubStack` from `memory.rs`: one call frame. -/
structure SubStack where
  return_address : Nat
  data : List Nat
deriving DecidableEq, Repr

/-- `MemoryState` from `memory.rs`.  Rust inserts new frames at index 0 and
reads `stack[0]`, so the head of the list is the active (top) frame. -/
structure MemoryState where
  stack : List SubStack
deriving DecidableEq, Repr

/-- `CpuStatus` from `main.rs`.  (The Rust code never actually assigns
`Running`; the execution loop runs while the status is not `Exiting`.) -/
inductive CpuStatus where
  | NotStarted : CpuStatus
  | Running : CpuStatus
  | Exiting : CpuStatus
deriving DecidableEq, Repr

/-- `CpuState` from `main.rs`.  The `HashMap` function table is embedded as
an association list with overwriting insert; only lookup and key-membership
are ever observed, so the representation order is irrelevant. -/
structure CpuState where
  frequency : Nat
  cycle_duration : Nat
  status : CpuStatus
  instruction_cache : List CpuInstruction
  instruction_pointer : Nat
  registers : CpuRegisters
  memory : MemoryState
  function_table : List (String × Nat)
deriving DecidableEq, Repr

/-- `HashMap::insert`: overwrite the binding for `k` if present, else add
it.  Represented by prepending after removing any old binding. -/
def tableInsert (t : List (String × Nat)) (k : String) (v : Nat) :
    List (String × Nat) :=
  (k, v) :: t.filter (fun p => p.1 ≠ k)

/-- `HashMap::get`. -/
def tableLookup (t : List (String × Nat)) (k : String) : Option Nat :=
  (t.find? (fun p => p.1 = k)).map (fun p => p.2)

/-- `HashMap::contains_key`. -/
def tableContains (t : List (String × Nat)) (k : String) : Bool :=
  t.any (fun p => p.1 = k)

/-- `MemoryState::create_new_sub_stack`: insert a fresh frame (empty
locals) at the top. -/
def MemoryState.create_new_sub_stack (m : MemoryState) (return_address : Nat) :
    MemoryState :=
  ⟨⟨return_address, []⟩ :: m.stack⟩

/-- `MemoryState::get_current_sub_stack`: `&self.stack[0]`; indexing an
empty vector panics (the spec's `EmptyCallStack`). -/
def MemoryState.get_current_sub_stack (m : MemoryState) : Except Err SubStack :=
  match m.stack with
  | [] => .error .emptyCallStack
  | sub :: _ => .ok sub

/-- The `while data.get(address).is_none() { data.push(0) }` loop of
`MemoryState::write_data`: pad with zeros until index `address` exists.
Equals `l` unchanged when `address < l.length`. -/
def zeroExtend (l : List Nat) (address : Nat) : List Nat :=
  l ++ List.replicate (address + 1 - l.length) 0

/-- `MemoryState::write_data`: on the top frame (`stack[0]`, panicking with
`EmptyCallStack` when empty), zero-extend the locals if index `address` is
absent, then set index `address` to `data`.  After the extension the index
is always in range, so Rust's final bounds-checked store cannot panic;
`List.set` is a no-op out of range, which is therefore never exercised. -/
def MemoryState.write_data (m : MemoryState) (address data : Nat) :
    Except Err MemoryState :=
  match m.stack with
  | [] => .error .emptyCallStack
  | sub :: rest =>
    let data1 := if (sub.data.get? address).isNone
                 then zeroExtend sub.data address else sub.data
    .ok ⟨⟨sub.return_address, data1.set address data⟩ :: rest⟩

/-- `MemoryState::rewind_stack`: `self.stack.remove(0)`; panics
(`EmptyCallStack`) when the stack is empty. -/
def MemoryState.rewind_stack (m : MemoryState) : Except Err MemoryState :=
  match m.stack with
  | [] => .error .emptyCallStack
  | _ :: rest => .ok ⟨rest⟩

/-- `CpuState::get_register`: name-keyed register read; panics
(`UnknownRegister`) on any name outside the closed set. -/
def CpuState.get_register (s : CpuState) (register_name : String) :
    Except Err Nat :=
  if register_name = "a" then .ok s.registers.a
  else if register_name = "b" then .ok s.registers.b
  else if register_name = "c" then .ok s.registers.c
  else if register_name = "d" then .ok s.registers.d
  else if register_name = "res" then .ok s.registers.res
  else .error (.unknownRegister register_name)

/-- `CpuState::get_register_mut` followed by the store `*register = v`. -/
def CpuState.set_register (s : CpuState) (register_name : String) (v : Nat) :
    Except Err CpuState :=
  if register_name = "a" then .ok { s with registers := { s.registers with a := v } }
  else if register_name = "b" then .ok { s with registers := { s.registers with b := v } }
  else if register_name = "c" then .ok { s with registers := { s.registers with c := v } }
  else if register_name = "d" then .ok { s with registers := { s.registers with d := v } }
  else if register_name = "res" then .ok { s with registers := { s.registers with res := v } }
  else .error (.unknownRegister register_name)

/-- The enumerated loop body of `CpuState::register_functions`: walk the
slice with a running index `i` (starting at 0 for each call, regardless of
how many instructions were loaded before), inserting `name ↦ i as u16` for
every `Fn name`. -/
def registerFunctionsAux (t : List (String × Nat)) (i : Nat) :
    List CpuInstruction → List (String × Nat)
  | [] => t
  | instruction :: rest =>
    match instruction with
    | .Fn fn_name => registerFunctionsAux (tableInsert t fn_name (i % U16)) (i + 1) rest
    | _ => registerFunctionsAux t (i + 1) rest

/-- `CpuState::register_functions`. -/
def registerFunctions (t : List (String × Nat))
    (instructions : List CpuInstruction) : List (String × Nat) :=
  registerFunctionsAux t 0 instructions

/-- `CpuState::append_instructions`: register the slice's function markers,
then append the slice to the instruction cache. -/
def CpuState.append_instructions (s : CpuState)
    (instructions : List CpuInstruction) : CpuState :=
  { s with
    function_table := registerFunctions s.function_table instructions
    instruction_cache := s.instruction_cache ++ instructions }

/-- `CpuState::fetch_argument_value`.  A `Stack` argument reads `stack[0]`
(panicking with `EmptyCallStack` when the stack is empty); when the index
is absent it first writes 0 there via `write_data` — an observable
zero-extension of the frame's locals — then reads the slot. -/
def CpuState.fetch_argument_value (s : CpuState)
    (argument : InstructionArgument) : Except Err (Nat × CpuState) :=
  match argument with
  | .Stack address => do
    let sub ← s.memory.get_current_sub_stack
    let s1 ←
      if (sub.data.get? address).isNone then do
        let m ← s.memory.write_data address 0
        pure { s with memory := m }
      else
        pure s
    let sub1 ← s1.memory.get_current_sub_stack
    match sub1.data.get? address with
    | some v => pure (v, s1)
    | none => Except.error Err.indexOutOfBounds
  | .Register register_name => do
    let v ← s.get_register register_name
    pure (v, s)
  | .Value value => pure (value, s)

/-- `u16` wrapping addition (Rust release profile `a + b`). -/
def add16 (a b : Nat) : Nat := (a + b) % U16

/-- `u16` wrapping subtraction (Rust release profile `a - b`):
`(a + 2^16 - b) % 2^16`, which equals `(a - b) mod 2^16` over the integers
whenever `b ≤ 2^16`. -/
def sub16 (a b : Nat) : Nat := (a + U16 - b) % U16

/-- `CpuState::handle_instruction`: the instruction dispatcher.  Structure
updates keep every component not mentioned unchanged, exactly as the Rust
field assignments do. -/
def CpuState.handle_instruction (s : CpuState) :
    CpuInstruction → Except Err CpuState
  | .Add a b => do
    let (va, s1) ← s.fetch_argument_value a
    let (vb, s2) ← s1.fetch_argument_value b
    pure { s2 with registers := { s2.registers with res := add16 va vb } }
  | .Sub a b => do
    let (va, s1) ← s.fetch_argument_value a
    let (vb, s2) ← s1.fetch_argument_value b
    pure { s2 with registers := { s2.registers with res := sub16 va vb } }
  | .Mov from_ to_ => do
    let (v, s1) ← s.fetch_argument_value from_
    match to_ with
    | .Stack address => do
      let m ← s1.memory.write_data address v
      pure { s1 with memory := m }
    | .Register register_name => s1.set_register register_name v
    | .Value _ => Except.error Err.invalidMovDestination
  | .Eq first second => do
    let (v1, s1) ← s.fetch_argument_value first
    let (v2, s2) ← s1.fetch_argument_value second
    pure { s2 with registers := { s2.registers with res := if v1 = v2 then 1 else 0 } }
  | .Fn _ => .ok s
  | .Ret => do
    let sub ← s.memory.get_current_sub_stack
    let m ← s.memory.rewind_stack
    pure { s with memory := m, instruction_pointer := sub.return_address }
  | .Call fn_name =>
    let m := s.memory.create_new_sub_stack s.instruction_pointer
    match tableLookup s.function_table fn_name with
    | some pos => .ok { s with memory := m, instruction_pointer := pos }
    | none => .error (.unknownFunction fn_name)
  | .Goto new_address => .ok { s with instruction_pointer := new_address }
  | .If boolean first second => do
    let (v, s1) ← s.fetch_argument_value boolean
    if v ≥ 1 then s1.handle_instruction first else s1.handle_instruction second
  | .Exit => .ok { s with status := .Exiting }

/-- One iteration of the `loop` in `CpuState::execute`: `none` when the
loop breaks (pointer out of range, or status `Exiting`); otherwise fetch
the instruction at the pointer, dispatch it, emit the trace line
`(pointer, res)` printed after the dispatch (the dispatch may have moved
the pointer), and advance the pointer by one (u16 wrap-around in release
profile). -/
def step (s : CpuState) : Option (Except Err (CpuState × (Nat × Nat))) :=
  if s.instruction_pointer ≥ s.instruction_cache.length then none
  else if s.status = .Exiting then none
  else
    match s.instruction_cache.get? s.instruction_pointer with
    | none => none
    | some instruction =>
      match s.handle_instruction instruction with
      | .error e => some (.error e)
      | .ok s1 =>
        some (.ok ({ s1 with instruction_pointer := (s1.instruction_pointer + 1) % U16 },
                   (s1.instruction_pointer, s1.registers.res)))

/-- Outcome of running the execution loop: `halted` when the loop condition
broke, `failed` when a dispatch panicked, `fuelOut` when the supplied fuel
ran out.  Each carries the trace lines emitted so far and the number of
completed loop iterations (instrumentation: the Rust loop has no explicit
counter, but each iteration is one dispatched instruction). -/
inductive RunResult where
  | halted : CpuState → List (Nat × Nat) → Nat → RunResult
  | fuelOut : CpuState → List (Nat × Nat) → Nat → RunResult
  | failed : Err → List (Nat × Nat) → Nat → RunResult
deriving DecidableEq, Repr

/-- The `loop` of `CpuState::execute`, fuelled. -/
def runLoop : Nat → CpuState → List (Nat × Nat) → Nat → RunResult
  | 0, s, trace, count => .fuelOut s trace count
  | fuel + 1, s, trace, count =>
    match step s with
    | none => .halted s trace count
    | some (.error e) => .failed e trace count
    | some (.ok (s1, line)) => runLoop fuel s1 (trace ++ [line]) (count + 1)

/-- `CpuState::execute`: fail with `MissingMainFunction` when the function
table has no `"main"` key (before any instruction runs); otherwise append
the synthetic `Call("main")`, point at it (`(len - 1) as u16`), and run the
loop. -/
def CpuState.execute (s : CpuState) (fuel : Nat) : RunResult :=
  if tableContains s.function_table "main" = false then
    .failed .missingMainFunction [] 0
  else
    let s1 := s.append_instructions [.Call "main"]
    let s2 := { s1 with
                instruction_pointer := (s1.instruction_cache.length - 1) % U16 }
    runLoop fuel s2 [] 0

/-- `CpuState::new`: all-zero registers, empty cache/memory/table,
`cycle_duration = 1000 / frequency`.  (Rust panics on `frequency = 0` by
division by zero — the spec's `InvalidFrequency`; no claim depends on it,
and Lean's `1000 / 0 = 0` is never exercised below.) -/
def CpuState.new (frequency : Nat) : CpuState :=
  { frequency := frequency
    cycle_duration := 1000 / frequency
    status := .NotStarted
    instruction_cache := []
    instruction_pointer := 0
    registers := ⟨0, 0, 0, 0, 0⟩
    memory := ⟨[]⟩
    function_table := [] }

/-- A sequence of cumulative `load` calls starting from a fresh state. -/
def loadAll (frequency : Nat) (slices : List (List CpuInstruction)) : CpuState :=
  slices.foldl (fun s slice => s.append_instructions slice) (CpuState.new frequency)

/-! ## Helper lemmas -/

theorem sub16_eq_int_emod (a b : Nat) (ha : a < U16) (hb : b < U16) :
    sub16 a b = (((a : Int) - (b : Int)) % (U16 : Int)).toNat := by
  unfold sub16 U16 at *
  omega

theorem add16_eq_mod (a b : Nat) : add16 a b = (a + b) % U16 := rfl

/-- Dispatching `Sub (Value a) (Value b)` on any state. -/
theorem handle_sub_value (s : CpuState) (a b : Nat) :
    s.handle_instruction (.Sub (.Value a) (.Value b)) =
      .ok { s with registers := { s.registers with res := sub16 a b } } := rfl

/-- Dispatching `Add (Value a) (Value b)` on any state. -/
theorem handle_add_value (s : CpuState) (a b : Nat) :
    s.handle_instruction (.Add (.Value a) (.Value b)) =
      .ok { s with registers := { s.registers with res := add16 a b } } := rfl

theorem bind_ok_red {e a b : Type} (x : a) (f : a → Except e b) :
    (Except.ok x >>= f) = f x := rfl

theorem bind_error_red {e a b : Type} (err : e) (f : a → Except e b) :
    ((Except.error err : Except e a) >>= f) = Except.error err := rfl

/-- One loop iteration on a state whose pointer is in range and whose
status is not `Exiting` fetches the instruction at the pointer, dispatches
it, prints `(pointer, res)` read from the post-dispatch state, and then
advances the pointer by one. -/
theorem step_fetches_at_pointer (t : CpuState) (instr : CpuInstruction)
    (hp : t.instruction_pointer < t.instruction_cache.length)
    (hst : t.status ≠ .Exiting)
    (hi : t.instruction_cache.get? t.instruction_pointer = some instr) :
    step t = some ((t.handle_instruction instr).map
      (fun t1 => ({ t1 with instruction_pointer := (t1.instruction_pointer + 1) % U16 },
                  (t1.instruction_pointer, t1.registers.res)))) := by
  unfold step
  rw [if_neg (by omega), if_neg (by simpa using hst), hi]
  cases h : t.handle_instruction instr <;> simp [h, Except.map]

/-- Dispatching `Ret` on a state whose top frame is `⟨p, d⟩` pops that
frame and sets the pointer to `p`. -/
theorem handle_ret_frame (s : CpuState) (p : Nat) (d : List Nat)
    (rest : List SubStack)
    (hstack : s.memory.stack = ⟨p, d⟩ :: rest) :
    s.handle_instruction .Ret =
      .ok { s with memory := ⟨rest⟩, instruction_pointer := p } := by
  simp [CpuState.handle_instruction, MemoryState.get_current_sub_stack,
        MemoryState.rewind_stack, hstack, bind_ok_red]

/-- Dispatching `Call name` when the table maps `name` to `pos` pushes a
fresh frame whose return address is the pre-dispatch pointer and jumps to
`pos`. -/
theorem handle_call_lookup (s : CpuState) (name : String) (pos : Nat)
    (hlook : tableLookup s.function_table name = some pos) :
    s.handle_instruction (.Call name) =
      .ok { s with memory := ⟨⟨s.instruction_pointer, []⟩ :: s.memory.stack⟩,
                   instruction_pointer := pos } := by
  simp [CpuState.handle_instruction, MemoryState.create_new_sub_stack, hlook]

/-! ## Claim theorems -/

/-- **C1.** Dispatching `Add(a,b)` on literal values sets the `Result`
register to `(a + b) mod 2^16` and dispatching `Sub(a,b)` sets it to
`(a - b) mod 2^16` (wrapping two's-complement arithmetic, no overflow
trap), all other state components unchanged. -/
theorem add_sub_sets_result_wrapping (a b : Nat) (s : CpuState)
    (ha : a < U16) (hb : b < U16) :
    s.handle_instruction (.Add (.Value a) (.Value b)) =
      .ok { s with registers := { s.registers with res := (a + b) % U16 } } ∧
    s.handle_instruction (.Sub (.Value a) (.Value b)) =
      .ok { s with registers := { s.registers with
              res := (((a : Int) - (b : Int)) % (U16 : Int)).toNat } } := by
  constructor
  · exact handle_add_value s a b
  · rw [handle_sub_value s a b, sub16_eq_int_emod a b ha hb]

/-- Witness for C1 at `Sub(Literal(3), Literal(10))`: the wrapped result is
65529. -/
theorem add_sub_sets_result_wrapping_witness :
    (3 : Nat) < U16 ∧ (10 : Nat) < U16 ∧
    ((((3 : Int) - (10 : Int)) % (U16 : Int)).toNat = 65529) ∧
    (CpuState.new 100).handle_instruction (.Sub (.Value 3) (.Value 10)) =
      .ok { CpuState.new 100 with
            registers := { (CpuState.new 100).registers with
              res := (((3 : Int) - (10 : Int)) % (U16 : Int)).toNat } } :=
  ⟨by decide, by decide, by decide,
   (add_sub_sets_result_wrapping 3 10 (CpuState.new 100) (by decide) (by decide)).2⟩

/-- **C3.** A dispatched `Call(name)` at pointer position `p` pushes a
frame whose `returnAddress` is exactly `p` (the pre-dispatch pointer, i.e.
the address of the `Call` itself); and a dispatched `Return` whose top
frame carries `returnAddress = p` sets the pointer to `p`, after which the
loop's unconditional increment resumes execution at `p + 1`, exactly one
position past the original `Call`. -/
theorem call_return_resumes_past_call :
    (∀ (s : CpuState) (name : String) (pos : Nat),
       s.instruction_pointer < s.instruction_cache.length →
       s.status ≠ .Exiting →
       s.instruction_cache.get? s.instruction_pointer = some (.Call name) →
       tableLookup s.function_table name = some pos →
       step s = some (.ok ({ s with
           memory := ⟨⟨s.instruction_pointer, []⟩ :: s.memory.stack⟩,
           instruction_pointer := (pos + 1) % U16 },
         (pos, s.registers.res)))) ∧
    (∀ (s : CpuState) (p : Nat) (d : List Nat) (rest : List SubStack),
       s.memory.stack = ⟨p, d⟩ :: rest →
       p + 1 < U16 →
       s.instruction_pointer < s.instruction_cache.length →
       s.status ≠ .Exiting →
       s.instruction_cache.get? s.instruction_pointer = some .Ret →
       step s = some (.ok ({ s with
                             memory := ⟨rest⟩
                             instruction_pointer := p + 1 },
                           (p, s.registers.res)))) := by
  constructor
  · intro s name pos hp hst hi hlook
    rw [step_fetches_at_pointer s (.Call name) hp hst hi,
        handle_call_lookup s name pos hlook]
    simp [Except.map]
  · intro s p d rest hstack hp1 hp hst hi
    rw [step_fetches_at_pointer s .Ret hp hst hi,
        handle_ret_frame s p d rest hstack]
    simp [Except.map, Nat.mod_eq_of_lt hp1]

/-- The concrete program used to witness C3: `main` is a single `Ret` and
the `Call` sits at position 2. -/
def c3CallState : CpuState :=
  { (CpuState.new 100).append_instructions [.Fn "main", .Ret, .Call "main"]
    with instruction_pointer := 2 }

/-- The state of the C3 witness program when the `Ret` is about to run:
the frame pushed by the `Call` at position 2 is on top. -/
def c3RetState : CpuState :=
  { c3CallState with memory := ⟨[⟨2, []⟩]⟩, instruction_pointer := 1 }

/-- Witness for C3: in the concrete program the `Call` at position 2
pushes a frame with return address 2 and jumps to `main` at 0; the `Ret`
then pops that frame and the loop resumes at 3 = 2 + 1. -/
theorem call_return_resumes_past_call_witness :
    step c3CallState = some (.ok ({ c3CallState with
        memory := ⟨⟨c3CallState.instruction_pointer, []⟩ :: c3CallState.memory.stack⟩,
        instruction_pointer := (0 + 1) % U16 },
      (0, c3CallState.registers.res))) ∧
    step c3RetState = some (.ok ({ c3RetState with
        memory := ⟨[]⟩
        instruction_pointer := 2 + 1 },
      (2, c3RetState.registers.res))) :=
  ⟨call_return_resumes_past_call.1 c3CallState "main" 0
     (by decide) (by decide) rfl rfl,
   call_return_resumes_past_call.2 c3RetState 2 [] []
     rfl (by decide) (by decide) (by decide) rfl⟩

/-- **C4.** The loop fetches and dispatches the instruction at the current
pointer and then unconditionally advances the pointer by one, so after
dispatching `Goto(n)` the pointer is `n + 1` and the next instruction
fetched (when `n + 1` is in range and the status still allows running) is
the one at position `n + 1`, not at `n`. -/
theorem goto_lands_one_past_target :
    (∀ (t : CpuState) (instr : CpuInstruction),
       t.instruction_pointer < t.instruction_cache.length →
       t.status ≠ .Exiting →
       t.instruction_cache.get? t.instruction_pointer = some instr →
       step t = some ((t.handle_instruction instr).map
         (fun t1 => ({ t1 with
             instruction_pointer := (t1.instruction_pointer + 1) % U16 },
           (t1.instruction_pointer, t1.registers.res))))) ∧
    (∀ (s : CpuState) (n : Nat),
       n + 1 < U16 →
       s.instruction_pointer < s.instruction_cache.length →
       s.status ≠ .Exiting →
       s.instruction_cache.get? s.instruction_pointer = some (.Goto n) →
       step s = some (.ok ({ s with instruction_pointer := n + 1 },
                           (n, s.registers.res)))) := by
  refine ⟨step_fetches_at_pointer, ?_⟩
  intro s n hn hp hst hi
  rw [step_fetches_at_pointer s (.Goto n) hp hst hi]
  simp [CpuState.handle_instruction, Except.map, Nat.mod_eq_of_lt hn]

/-- The concrete program used to witness C4: a `Goto 0` at position 1. -/
def c4GotoState : CpuState :=
  { (CpuState.new 100).append_instructions [.Fn "main", .Goto 0, .Ret]
    with instruction_pointer := 1 }

/-- Witness for C4: dispatching the `Goto 0` at position 1 leaves the
pointer at 1 = 0 + 1, one past the jump target. -/
theorem goto_lands_one_past_target_witness :
    step c4GotoState = some (.ok ({ c4GotoState with
        instruction_pointer := 0 + 1 },
      (0, c4GotoState.registers.res))) :=
  goto_lands_one_past_target.2 c4GotoState 0
    (by decide) (by decide) (by decide) rfl

/-- `set_register` can only succeed or fail with `UnknownRegister`; it
never produces `InvalidMovDestination`. -/
theorem set_register_not_invalidMov (s : CpuState) (rn : String) (v : Nat) :
    s.set_register rn v ≠ .error .invalidMovDestination := by
  unfold CpuState.set_register
  split_ifs <;> simp

/-- `write_data` can only succeed or fail with `EmptyCallStack`; it never
produces `InvalidMovDestination`. -/
theorem write_data_not_invalidMov (m : MemoryState) (a v : Nat) :
    m.write_data a v ≠ .error .invalidMovDestination := by
  rcases m with ⟨stack⟩
  cases stack <;> simp [MemoryState.write_data]

/-- `Mov` to a stack-slot destination, once the source has resolved. -/
theorem handle_mov_stack (s s1 : CpuState) (src : InstructionArgument)
    (v address : Nat) (hsrc : s.fetch_argument_value src = .ok (v, s1)) :
    s.handle_instruction (.Mov src (.Stack address)) =
      (s1.memory.write_data address v).map (fun m => { s1 with memory := m }) := by
  cases h : s1.memory.write_data address v <;>
    simp [CpuState.handle_instruction, hsrc, bind_ok_red, h, Except.map]

/-- `Mov` to a register destination, once the source has resolved. -/
theorem handle_mov_register (s s1 : CpuState) (src : InstructionArgument)
    (v : Nat) (register_name : String)
    (hsrc : s.fetch_argument_value src = .ok (v, s1)) :
    s.handle_instruction (.Mov src (.Register register_name)) =
      s1.set_register register_name v := by
  simp [CpuState.handle_instruction, hsrc, bind_ok_red]

/-- `Mov` to a literal destination, once the source has resolved. -/
theorem handle_mov_value (s s1 : CpuState) (src : InstructionArgument)
    (v w : Nat) (hsrc : s.fetch_argument_value src = .ok (v, s1)) :
    s.handle_instruction (.Mov src (.Value w)) =
      .error .invalidMovDestination := by
  simp [CpuState.handle_instruction, hsrc, bind_ok_red]

/-- **C5.** Once the source resolves, dispatching `Mov(src,dst)` fails with
`InvalidMovDestination` exactly when `dst` is a literal; a register
destination performs the register write and a stack-slot destination
performs the frame-slot write. -/
theorem mov_invalid_dest_iff_literal (s s1 : CpuState)
    (src dst : InstructionArgument) (v : Nat)
    (hsrc : s.fetch_argument_value src = .ok (v, s1)) :
    (s.handle_instruction (.Mov src dst) = .error .invalidMovDestination
       ↔ ∃ w, dst = .Value w) ∧
    (∀ register_name, dst = .Register register_name →
       s.handle_instruction (.Mov src dst) = s1.set_register register_name v) ∧
    (∀ address, dst = .Stack address →
       s.handle_instruction (.Mov src dst) =
         (s1.memory.write_data address v).map (fun m => { s1 with memory := m })) := by
  refine ⟨⟨?_, ?_⟩, ?_, ?_⟩
  · intro h
    cases dst with
    | Stack address =>
      rw [handle_mov_stack s s1 src v address hsrc] at h
      exfalso
      cases hw : s1.memory.write_data address v with
      | error e =>
        rw [hw] at h
        simp [Except.map] at h
        exact write_data_not_invalidMov s1.memory address v (by rw [hw, h])
      | ok m => rw [hw] at h; simp [Except.map] at h
    | Register register_name =>
      rw [handle_mov_register s s1 src v register_name hsrc] at h
      exact absurd h (set_register_not_invalidMov s1 register_name v)
    | Value w => exact ⟨w, rfl⟩
  · rintro ⟨w, rfl⟩
    exact handle_mov_value s s1 src v w hsrc
  · rintro register_name rfl
    exact handle_mov_register s s1 src v register_name hsrc
  · rintro address rfl
    exact handle_mov_stack s s1 src v address hsrc

/-- The state used to witness C5: a single frame is active. -/
def c5State : CpuState :=
  { CpuState.new 100 with memory := ⟨[⟨0, []⟩]⟩ }

/-- Witness for C5 with source `Literal(5)` and destination `Literal(0)`:
the dispatch fails with `InvalidMovDestination`, and the register/slot
branches hold vacuously. -/
theorem mov_invalid_dest_iff_literal_witness :
    (c5State.handle_instruction (.Mov (.Value 5) (.Value 0)) =
        .error .invalidMovDestination ↔
      ∃ w, (InstructionArgument.Value 0) = .Value w) ∧
    (∀ register_name, (InstructionArgument.Value 0) = .Register register_name →
       c5State.handle_instruction (.Mov (.Value 5) (.Value 0)) =
         c5State.set_register register_name 5) ∧
    (∀ address, (InstructionArgument.Value 0) = .Stack address →
       c5State.handle_instruction (.Mov (.Value 5) (.Value 0)) =
         (c5State.memory.write_data address 5).map
           (fun m => { c5State with memory := m })) :=
  mov_invalid_dest_iff_literal c5State c5State (.Value 5) (.Value 0) 5 rfl

theorem zeroExtend_length (l : List Nat) (i : Nat) (h : l.length ≤ i) :
    (zeroExtend l i).length = i + 1 := by
  simp only [zeroExtend, List.length_append, List.length_replicate]
  omega

theorem zeroExtend_get?_self (l : List Nat) (i : Nat) (h : l.length ≤ i) :
    (zeroExtend l i).get? i = some 0 := by
  unfold zeroExtend
  rw [List.get?_append_right h, List.get?_eq_getElem?,
      List.getElem?_replicate, if_pos (by omega)]

/-- Writing 0 at position `i` of an `i`-zero-extension is a no-op: the
element there is already 0. -/
theorem zeroExtend_set_zero (l : List Nat) (i : Nat) (h : l.length ≤ i) :
    (zeroExtend l i).set i 0 = zeroExtend l i := by
  apply List.ext_get?
  intro n
  rcases eq_or_ne i n with rfl | hne
  · rw [List.get?_set_eq_of_lt 0 (by rw [zeroExtend_length l i h]; omega),
        zeroExtend_get?_self l i h]
  · rw [List.get?_set_ne 0 _ hne]

theorem pure_ok_red {e a : Type} (x : a) :
    (pure x : Except e a) = Except.ok x := rfl

theorem zeroExtend_getElem?_self (l : List Nat) (i : Nat) (h : l.length ≤ i) :
    (zeroExtend l i)[i]? = some 0 := by
  rw [← List.get?_eq_getElem?]
  exact zeroExtend_get?_self l i h

/-- `write_data` at an absent index: the locals are zero-extended up to
and including the index before the store. -/
theorem write_data_zeroExtend (m : MemoryState) (ra : Nat) (d : List Nat)
    (rest : List SubStack) (i v : Nat)
    (hstack : m.stack = ⟨ra, d⟩ :: rest)
    (hlen : d.length ≤ i) :
    m.write_data i v = .ok ⟨⟨ra, (zeroExtend d i).set i v⟩ :: rest⟩ := by
  have hget : d.get? i = none := List.get?_eq_none.2 hlen
  simp [MemoryState.write_data, hstack, hget, hlen]

/-- Reading an out-of-range slot: the frame grows to `zeroExtend d i` (an
observable mutation) and the returned value is 0. -/
theorem fetch_stack_out_of_range (s : CpuState) (i ra : Nat) (d : List Nat)
    (rest : List SubStack)
    (hstack : s.memory.stack = ⟨ra, d⟩ :: rest) (hlen : d.length ≤ i) :
    s.fetch_argument_value (.Stack i) =
      .ok (0, { s with memory := ⟨⟨ra, zeroExtend d i⟩ :: rest⟩ }) := by
  have hget : d.get? i = none := List.get?_eq_none.2 hlen
  have hw := write_data_zeroExtend s.memory ra d rest i 0 hstack hlen
  rw [zeroExtend_set_zero d i hlen] at hw
  simp [CpuState.fetch_argument_value, MemoryState.get_current_sub_stack,
        hstack, hget, hlen, bind_ok_red, pure_ok_red, hw,
        zeroExtend_getElem?_self d i hlen, zeroExtend_get?_self d i hlen]

/-- **C6.** Reading slot `i` of the active frame when `i` is at or beyond
the locals length first zero-extends the locals up to and including `i`
(an observable mutation of the frame) and returns 0; writing a slot uses
the same zero-extension, so `writeSlot(3, 9)` on a fresh frame yields
locals `[0,0,0,9]`, after which slots 0–2 read as 0 (with no further
mutation) and slot 3 reads as 9. -/
theorem slot_read_zero_extends (s : CpuState) (i ra : Nat) (d : List Nat)
    (rest : List SubStack)
    (hstack : s.memory.stack = ⟨ra, d⟩ :: rest) (hlen : d.length ≤ i) :
    (s.fetch_argument_value (.Stack i) =
       .ok (0, { s with memory :=
         ⟨⟨ra, d ++ List.replicate (i + 1 - d.length) 0⟩ :: rest⟩ })) ∧
    (∀ (t : CpuState) (ra1 : Nat) (rest1 : List SubStack),
       t.memory.stack = ⟨ra1, []⟩ :: rest1 →
       t.memory.write_data 3 9 = .ok ⟨⟨ra1, [0, 0, 0, 9]⟩ :: rest1⟩) ∧
    (∀ (t : CpuState) (ra1 : Nat) (rest1 : List SubStack),
       t.memory.stack = ⟨ra1, [0, 0, 0, 9]⟩ :: rest1 →
       (∀ j, j < 3 → t.fetch_argument_value (.Stack j) = .ok (0, t)) ∧
       t.fetch_argument_value (.Stack 3) = .ok (9, t)) := by
  refine ⟨fetch_stack_out_of_range s i ra d rest hstack hlen, ?_, ?_⟩
  · intro t ra1 rest1 ht
    have hw := write_data_zeroExtend t.memory ra1 [] rest1 3 9 ht (by simp)
    simpa [zeroExtend] using hw
  · intro t ra1 rest1 ht
    refine ⟨?_, ?_⟩
    · intro j hj
      interval_cases j <;>
        simp [CpuState.fetch_argument_value,
              MemoryState.get_current_sub_stack, ht, bind_ok_red, pure_ok_red]
    · simp [CpuState.fetch_argument_value,
            MemoryState.get_current_sub_stack, ht, bind_ok_red, pure_ok_red]

/-- Witness for C6: on the single-frame state, reading unwritten slot 2
zero-extends the empty locals to `[0,0,0]`; and the concrete `writeSlot` /
`readSlot` facts instantiate cleanly. -/
theorem slot_read_zero_extends_witness :
    (c5State.fetch_argument_value (.Stack 2) =
       .ok (0, { c5State with memory :=
         ⟨⟨0, [] ++ List.replicate (2 + 1 - List.length ([] : List Nat)) 0⟩ :: []⟩ })) ∧
    (∀ (t : CpuState) (ra1 : Nat) (rest1 : List SubStack),
       t.memory.stack = ⟨ra1, []⟩ :: rest1 →
       t.memory.write_data 3 9 = .ok ⟨⟨ra1, [0, 0, 0, 9]⟩ :: rest1⟩) ∧
    (∀ (t : CpuState) (ra1 : Nat) (rest1 : List SubStack),
       t.memory.stack = ⟨ra1, [0, 0, 0, 9]⟩ :: rest1 →
       (∀ j, j < 3 → t.fetch_argument_value (.Stack j) = .ok (0, t)) ∧
       t.fetch_argument_value (.Stack 3) = .ok (9, t)) :=
  slot_read_zero_extends c5State 2 0 [] [] rfl (by decide)

/-- Reading a slot that is already in range returns its value and leaves
the state untouched. -/
theorem fetch_stack_in_range (s : CpuState) (i ra : Nat) (d : List Nat)
    (rest : List SubStack) (v : Nat)
    (hstack : s.memory.stack = ⟨ra, d⟩ :: rest) (hv : d.get? i = some v) :
    s.fetch_argument_value (.Stack i) = .ok (v, s) := by
  have hv2 : d[i]? = some v := by rw [← List.get?_eq_getElem?]; exact hv
  have hnot : ¬ d.length ≤ i := by
    intro hc
    rw [List.get?_eq_none.2 hc] at hv
    cases hv
  simp [CpuState.fetch_argument_value, MemoryState.get_current_sub_stack,
        hstack, hv, hv2, hnot, bind_ok_red, pure_ok_red]

/-- **C8.** With an empty call stack, dispatching `Return` as well as
resolving or writing any stack-slot argument fails with `EmptyCallStack`
(an error, not a fallback to a default frame); with a non-empty stack none
of these operations can fail with that error. -/
theorem empty_call_stack_is_error (s : CpuState) :
    (s.memory.stack = [] →
       s.handle_instruction .Ret = .error .emptyCallStack ∧
       (∀ i, s.fetch_argument_value (.Stack i) = .error .emptyCallStack) ∧
       (∀ i v, s.memory.write_data i v = .error .emptyCallStack)) ∧
    (s.memory.stack ≠ [] →
       s.handle_instruction .Ret ≠ .error .emptyCallStack ∧
       (∀ i, s.fetch_argument_value (.Stack i) ≠ .error .emptyCallStack) ∧
       (∀ i v, s.memory.write_data i v ≠ .error .emptyCallStack)) := by
  constructor
  · intro h
    refine ⟨?_, ?_, ?_⟩
    · simp [CpuState.handle_instruction, MemoryState.get_current_sub_stack,
            h, bind_error_red]
    · intro i
      simp [CpuState.fetch_argument_value, MemoryState.get_current_sub_stack,
            h, bind_error_red]
    · intro i v
      simp [MemoryState.write_data, h]
  · intro h
    obtain ⟨⟨p, d⟩, rest, hstack⟩ :
        ∃ sub rest, s.memory.stack = sub :: rest := by
      cases hs : s.memory.stack with
      | nil => exact absurd hs h
      | cons a l => exact ⟨a, l, rfl⟩
    refine ⟨?_, ?_, ?_⟩
    · rw [handle_ret_frame s p d rest hstack]
      simp
    · intro i
      cases hv : d.get? i with
      | none =>
        rw [fetch_stack_out_of_range s i p d rest hstack
              (List.get?_eq_none.1 hv)]
        simp
      | some v =>
        rw [fetch_stack_in_range s i p d rest v hstack hv]
        simp
    · intro i v
      simp [MemoryState.write_data, hstack]

/-- Witness for C8: the fresh state has an empty stack and every operation
errors; `c5State` has one frame and none of them can produce
`EmptyCallStack`. -/
theorem empty_call_stack_is_error_witness :
    ((CpuState.new 100).handle_instruction .Ret = .error .emptyCallStack ∧
     (∀ i, (CpuState.new 100).fetch_argument_value (.Stack i) =
        .error .emptyCallStack) ∧
     (∀ i v, (CpuState.new 100).memory.write_data i v =
        .error .emptyCallStack)) ∧
    (c5State.handle_instruction .Ret ≠ .error .emptyCallStack ∧
     (∀ i, c5State.fetch_argument_value (.Stack i) ≠
        .error .emptyCallStack) ∧
     (∀ i v, c5State.memory.write_data i v ≠ .error .emptyCallStack)) :=
  ⟨(empty_call_stack_is_error (CpuState.new 100)).1 rfl,
   (empty_call_stack_is_error c5State).2 (by decide)⟩

theorem tableContains_insert_false (t : List (String × Nat)) (k k1 : String)
    (v : Nat) (hne : k1 ≠ k) (h : tableContains t k = false) :
    tableContains (tableInsert t k1 v) k = false := by
  have hf : (t.filter (fun p => p.1 ≠ k1)).any (fun p => p.1 = k) = false := by
    rw [List.any_filter]
    simp only [tableContains, List.any_eq_false] at h ⊢
    intro a ha
    have h2 := h a ha
    simp at h2 ⊢
    intro
    exact h2
  simp only [tableContains, tableInsert, List.any_cons]
  rw [hf]
  simp [hne]

/-- Scanning a slice that declares no function named `k` never makes `k`
appear in the table. -/
theorem registerFunctionsAux_contains_false (k : String) :
    ∀ (instrs : List CpuInstruction) (t : List (String × Nat)) (i : Nat),
      tableContains t k = false →
      CpuInstruction.Fn k ∉ instrs →
      tableContains (registerFunctionsAux t i instrs) k = false := by
  intro instrs
  induction instrs with
  | nil =>
    intro t i ht _
    simpa [registerFunctionsAux] using ht
  | cons instr rest ih =>
    intro t i ht hmem
    have htl : CpuInstruction.Fn k ∉ rest :=
      fun hm => hmem (List.mem_cons_of_mem _ hm)
    cases instr
    case Fn name =>
      have hne : name ≠ k := by
        rintro rfl
        exact hmem (List.mem_cons_self _ _)
      simpa only [registerFunctionsAux] using
        ih (tableInsert t name (i % U16)) (i + 1)
          (tableContains_insert_false t k name (i % U16) hne ht) htl
    all_goals simpa only [registerFunctionsAux] using ih t (i + 1) ht htl

theorem append_contains_false (s : CpuState) (instrs : List CpuInstruction)
    (k : String) (hs : tableContains s.function_table k = false)
    (hmem : CpuInstruction.Fn k ∉ instrs) :
    tableContains (s.append_instructions instrs).function_table k = false := by
  simp only [CpuState.append_instructions, registerFunctions]
  exact registerFunctionsAux_contains_false k instrs s.function_table 0 hs hmem

theorem loadAll_contains_false (k : String) :
    ∀ (slices : List (List CpuInstruction)) (s : CpuState),
      tableContains s.function_table k = false →
      (∀ sl ∈ slices, CpuInstruction.Fn k ∉ sl) →
      tableContains
        ((slices.foldl (fun s sl => s.append_instructions sl) s).function_table)
        k = false := by
  intro slices
  induction slices with
  | nil =>
    intro s hs _
    simpa using hs
  | cons sl rest ih =>
    intro s hs hall
    simp only [List.foldl_cons]
    exact ih (s.append_instructions sl)
      (append_contains_false s sl k hs (hall sl (List.mem_cons_self _ _)))
      (fun sl2 h2 => hall sl2 (List.mem_cons_of_mem _ h2))

/-- **C7.** For every sequence of loads whose concatenation contains no
`FunctionMarker("main")`, `execute` fails with `MissingMainFunction`
before the loop starts: zero instructions are dispatched and zero trace
lines are produced, whatever the fuel. -/
theorem missing_main_no_execution (frequency fuel : Nat)
    (slices : List (List CpuInstruction))
    (h : CpuInstruction.Fn "main" ∉ slices.join) :
    (loadAll frequency slices).execute fuel =
      .failed .missingMainFunction [] 0 := by
  have hall : ∀ sl ∈ slices, CpuInstruction.Fn "main" ∉ sl :=
    fun sl hsl hm => h (List.mem_join.2 ⟨sl, hsl, hm⟩)
  have hc : tableContains (loadAll frequency slices).function_table "main"
      = false :=
    loadAll_contains_false "main" slices (CpuState.new frequency)
      rfl hall
  unfold CpuState.execute
  rw [if_pos hc]

/-- Witness for C7: a one-load program with no `main` marker fails without
running anything. -/
theorem missing_main_no_execution_witness :
    (CpuInstruction.Fn "main" ∉ [[CpuInstruction.Add (.Value 1) (.Value 1)]].join) ∧
    (loadAll 100 [[CpuInstruction.Add (.Value 1) (.Value 1)]]).execute 5 =
      .failed .missingMainFunction [] 0 :=
  ⟨by decide,
   missing_main_no_execution 100 5 [[CpuInstruction.Add (.Value 1) (.Value 1)]]
     (by decide)⟩

/-- **C9.** Dispatching `Add(Literal(5), Literal(7))` sets `Result` to 12
and leaves registers A, B, C and D (and every other state component)
unchanged. -/
theorem add_5_7_result_12_registers_unchanged (s : CpuState) :
    s.handle_instruction (.Add (.Value 5) (.Value 7)) =
      .ok { s with registers := { s.registers with res := 12 } } := rfl

/-- The index of the last `Fn name` marker in a slice, if any. -/
def findLastFn : List CpuInstruction → String → Option Nat
  | [], _ => none
  | instruction :: rest, name =>
    match findLastFn rest name with
    | some j => some (j + 1)
    | none => if instruction = .Fn name then some 0 else none

theorem tableLookup_insert_self (t : List (String × Nat)) (k : String)
    (v : Nat) : tableLookup (tableInsert t k v) k = some v := by
  simp [tableLookup, tableInsert, List.find?_cons_of_pos]

theorem find?_filter_of_imp {α : Type} (p q : α → Bool) :
    ∀ (l : List α), (∀ x, p x = true → q x = true) →
      List.find? p (List.filter q l) = List.find? p l := by
  intro l
  induction l with
  | nil => intro _; rfl
  | cons a l ih =>
    intro h
    by_cases hq : q a = true
    · rw [List.filter_cons_of_pos hq]
      by_cases hp : p a = true
      · rw [List.find?_cons_of_pos _ hp, List.find?_cons_of_pos _ hp]
      · rw [List.find?_cons_of_neg _ hp, List.find?_cons_of_neg _ hp]
        exact ih h
    · rw [List.filter_cons_of_neg hq]
      have hp : ¬ p a = true := fun hc => hq (h a hc)
      rw [List.find?_cons_of_neg _ hp]
      exact ih h

theorem tableLookup_insert_ne (t : List (String × Nat)) (k k1 : String)
    (v : Nat) (hne : k1 ≠ k) :
    tableLookup (tableInsert t k1 v) k = tableLookup t k := by
  simp only [tableLookup, tableInsert]
  rw [List.find?_cons_of_neg _ (by simp [hne]),
      find?_filter_of_imp _ _ t (by
        intro x hx
        simp at hx ⊢
        rw [hx]
        exact fun hc => hne hc.symm)]

/-- The table built by scanning a slice from running index `i` maps `name`
to `i + j` (as u16) where `j` is the index of the last `Fn name` in the
slice, and is untouched on `name` when the slice has no such marker. -/
theorem registerFunctionsAux_lookup (name : String) :
    ∀ (instrs : List CpuInstruction) (t : List (String × Nat)) (i : Nat),
      tableLookup (registerFunctionsAux t i instrs) name =
        (match findLastFn instrs name with
         | some j => some ((i + j) % U16)
         | none => tableLookup t name) := by
  intro instrs
  induction instrs with
  | nil => intro t i; rfl
  | cons instr rest ih =>
    intro t i
    cases instr
    case Fn n =>
      by_cases hn : n = name
      · subst hn
        cases hf : findLastFn rest n with
        | some j =>
          simp only [registerFunctionsAux, findLastFn, ih, hf]
          rw [show i + 1 + j = i + (j + 1) from by omega]
        | none =>
          simp only [registerFunctionsAux, findLastFn, ih, hf, if_pos rfl]
          rw [tableLookup_insert_self]
          simp
      · cases hf : findLastFn rest name with
        | some j =>
          simp only [registerFunctionsAux, findLastFn, ih, hf]
          rw [show i + 1 + j = i + (j + 1) from by omega]
        | none =>
          have hne2 : (CpuInstruction.Fn n) ≠ .Fn name := by
            intro hc
            cases hc
            exact hn rfl
          simp only [registerFunctionsAux, findLastFn, ih, hf, if_neg hne2]
          exact tableLookup_insert_ne t name n (i % U16) hn
    all_goals
      cases hf : findLastFn rest name with
      | some j =>
        simp only [registerFunctionsAux, findLastFn, ih, hf]
        rw [show i + 1 + j = i + (j + 1) from by omega]
      | none =>
        simp only [registerFunctionsAux, findLastFn, ih, hf]
        simp

theorem findLastFn_eq_none (name : String) :
    ∀ (l : List CpuInstruction), (CpuInstruction.Fn name) ∉ l →
      findLastFn l name = none := by
  intro l
  induction l with
  | nil => intro _; rfl
  | cons a l ih =>
    intro h
    have htl := ih (fun hm => h (List.mem_cons_of_mem _ hm))
    have hne : a ≠ .Fn name := fun he => h (he ▸ List.mem_cons_self _ _)
    simp [findLastFn, htl, hne]

/-- `findLastFn` really finds the last occurrence. -/
theorem findLastFn_last (name : String) :
    ∀ (l : List CpuInstruction) (j : Nat),
      l.get? j = some (.Fn name) →
      (∀ k, j < k → l.get? k ≠ some (.Fn name)) →
      findLastFn l name = some j := by
  intro l
  induction l with
  | nil => intro j hj _; simp at hj
  | cons a l ih =>
    intro j hj hlast
    cases j with
    | zero =>
      simp at hj
      have hnone : findLastFn l name = none := by
        apply findLastFn_eq_none
        intro hm
        obtain ⟨k, hk⟩ := List.get?_of_mem hm
        exact hlast (k + 1) (Nat.succ_pos k) (by simpa using hk)
      simp [findLastFn, hnone, hj]
    | succ j =>
      have hj2 : l.get? j = some (.Fn name) := by simpa using hj
      have hlast2 : ∀ k, j < k → l.get? k ≠ some (.Fn name) := by
        intro k hk hc
        exact hlast (k + 1) (by omega) (by simpa using hc)
      simp [findLastFn, ih j hj2 hlast2]

/-- **C10.** Loading a single slice in which position `j` holds the last
`FunctionMarker(name)` (there may be earlier ones with the same name)
leaves the Function Table mapping `name` to `j`: later markers silently
shadow earlier ones, and nothing is rejected. -/
theorem duplicate_markers_last_wins (frequency : Nat)
    (instrs : List CpuInstruction) (name : String) (j : Nat)
    (hlen : instrs.length ≤ U16)
    (hj : instrs.get? j = some (.Fn name))
    (hlast : ∀ k, j < k → instrs.get? k ≠ some (.Fn name)) :
    tableLookup
      ((CpuState.new frequency).append_instructions instrs).function_table
      name = some j := by
  have hjlt : j < U16 := by
    by_contra hc
    rw [List.get?_eq_none.2 (by omega)] at hj
    cases hj
  have hfind := findLastFn_last name instrs j hj hlast
  simp only [CpuState.append_instructions, registerFunctions]
  rw [registerFunctionsAux_lookup name instrs _ 0, hfind]
  simp [Nat.mod_eq_of_lt hjlt]

/-- Witness for C10: with two `Fn "f"` markers at positions 0 and 1, the
table maps `"f"` to 1. -/
theorem duplicate_markers_last_wins_witness :
    ([CpuInstruction.Fn "f", CpuInstruction.Fn "f"].length ≤ U16) ∧
    ([CpuInstruction.Fn "f", CpuInstruction.Fn "f"].get? 1 =
       some (.Fn "f")) ∧
    tableLookup
      ((CpuState.new 100).append_instructions
        [CpuInstruction.Fn "f", CpuInstruction.Fn "f"]).function_table
      "f" = some 1 :=
  ⟨by decide, by decide,
   duplicate_markers_last_wins 100 [CpuInstruction.Fn "f", CpuInstruction.Fn "f"]
     "f" 1 (by decide) (by decide)
     (by
       intro k hk
       rcases k with _ | _ | n
       · omega
       · omega
       · simp [List.get?])⟩

/-- **C2 counterexample.** Two cumulative loads: the first load holds one
non-marker instruction, the second load holds `Fn "f"`.  The marker's
absolute position in the concatenated program is 1 (and only 1), yet the
Function Table maps `"f"` to 0, the marker's index *within its own load
slice* — `register_functions` enumerates every slice from 0 and never adds
the length of the already-loaded program. -/
theorem second_load_records_relative_position :
    (tableLookup
       (loadAll 100 [[CpuInstruction.Add (.Value 0) (.Value 0)],
                     [CpuInstruction.Fn "f"]]).function_table "f" = some 0) ∧
    ((loadAll 100 [[CpuInstruction.Add (.Value 0) (.Value 0)],
                   [CpuInstruction.Fn "f"]]).instruction_cache.get? 1 =
       some (CpuInstruction.Fn "f")) ∧
    (∀ j, (loadAll 100 [[CpuInstruction.Add (.Value 0) (.Value 0)],
                        [CpuInstruction.Fn "f"]]).instruction_cache.get? j =
        some (CpuInstruction.Fn "f") → j = 1) ∧
    (tableLookup
       (loadAll 100 [[CpuInstruction.Add (.Value 0) (.Value 0)],
                     [CpuInstruction.Fn "f"]]).function_table "f" ≠ some 1) := by
  refine ⟨rfl, rfl, ?_, by decide⟩
  intro j h
  rcases j with _ | _ | n
  · cases h
  · rfl
  · simp [loadAll, CpuState.append_instructions, List.get?] at h

end EmulatedCpu
